import Mathlib

/-!
Verification of `util/md-to-calibre.py`, a script that imports a Markdown
bibliography list into a Calibre database.  The script is a linear pipeline:

1. read the input file into a list of lines (each line keeps its trailing
   newline character, as with Python `readlines`);
2. segment the lines into entry blocks using a blank-line + leading-number
   heuristic (`last_line_empty` flag and `re.search(r"(^[1-9]+[0-9]*)\. ", line)`);
3. parse each block with the verbose pattern `entry_regex`, then normalize
   the `title1`/`title2` groups into a single `title` field;
4. for each record, call `calibredb add` (extracting the new id from its
   stdout via `re.findall(r'Added book ids:\s+([0-9]+)', ...)[0]`) and then
   `calibredb set_metadata` with rendered field arguments.

The embedding below models lines and blocks as Lean `String`s (working on
`List Char` internally) and resolves the regex backtracking behaviour of the
concrete patterns into deterministic functions.
-/

/-! ### Character classes used by the patterns -/
/-- Python regex class `[0-9]`. -/
def isDigit09 (c : Char) : Bool := '0' ≤ c && c ≤ '9'

/-- Python regex class `[1-9]`. -/
def isDigit19 (c : Char) : Bool := '1' ≤ c && c ≤ '9'

/-- Python regex class `\s`, restricted to its ASCII members
`[ \t\n\r\f\v]` (all inputs the script is given are ASCII). -/
def isWs (c : Char) : Bool :=
  c = ' ' || c = '\t' || c = '\n' || c = '\r' || c = '\x0b' || c = '\x0c'

/-! ### Step 2: the segmentation loop

The script keeps a flag `last_line_empty` (initially `False`), an
accumulating buffer `entry` (initially `''`) and an output list
`booklist_entries`.  For each line it computes
`entry_number_match = re.search(r"(^[1-9]+[0-9]*)\. ", line)`; if the flag
is set and the line matches, the buffer is emitted and a new buffer starts
with the line, otherwise the line is appended to the buffer.  The flag is
then updated to `line == "\n"`.  After the loop the final buffer is
emitted unconditionally. -/
/-- Matching tail of the pattern `[0-9]*\. ` : a possibly empty run of
digits followed by the two characters `". "`.  (Since `.` is not a digit,
the regex backtracking adds no further matches.) -/
def checkDigitsDotSpace : List Char → Bool
  | c :: d :: rest => (c = '.' && d = ' ') || (isDigit09 c && checkDigitsDotSpace (d :: rest))
  | _ => false

/-- `re.search(r"(^[1-9]+[0-9]*)\. ", line)` viewed as a Bool: the `^`
anchor (without `re.MULTILINE`) restricts the search to the start of the
string, so the line must begin with a nonzero digit, further digits, then
`". "`. -/
def entryNumberMatch (line : String) : Bool :=
  match line.toList with
  | c :: rest => isDigit19 c && checkDigitsDotSpace rest
  | [] => false

/-- The local state of the segmentation loop. -/
structure SegState where
  lastLineEmpty : Bool
  entry : String
  entries : List String
deriving DecidableEq, Repr

/-- One iteration of the segmentation loop body. -/
def segStep (s : SegState) (line : String) : SegState :=
  if s.lastLineEmpty && entryNumberMatch line then
    { lastLineEmpty := line == "\n", entry := line, entries := s.entries ++ [s.entry] }
  else
    { lastLineEmpty := line == "\n", entry := s.entry ++ line, entries := s.entries }

/-- The state after the whole loop, from the initial state. -/
def segRun (lines : List String) : SegState :=
  lines.foldl segStep { lastLineEmpty := false, entry := "", entries := [] }

/-- The emitted blocks: the loop output plus the unconditionally appended
final buffer. -/
def segmentLines (lines : List String) : List String :=
  (segRun lines).entries ++ [(segRun lines).entry]

/-! ### C4: characterizing the new-entry test

The spec describes the test as "one or more digits, followed by a period
and a space"; the code's pattern `^[1-9]+[0-9]*\. ` additionally requires
the first digit to be nonzero. -/
/-- Modelled from the spec's words for the segmenter's new-entry test:
"one or more digits, followed by a period and a space" anchored at the
line start. -/
def specLeadingNumberTest (line : String) : Bool :=
  match line.toList with
  | c :: rest => isDigit09 c && checkDigitsDotSpace rest
  | [] => false

/-! ### C2 and C10: global behaviour of the segmentation loop -/
/-- Adjacent lines `a`, `b` do not trigger a split: not (`a` is the blank
line and `b` matches the new-entry pattern). -/
def noSplitPairB (a b : String) : Bool := !(a == "\n" && entryNumberMatch b)

/-- No adjacent pair of lines in the list triggers a split. -/
def chainNoSplit : List String → Bool
  | a :: b :: t => noSplitPairB a b && chainNoSplit (b :: t)
  | _ => true

/-- A well-formed entry: nonempty, beginning with a line that matches the
new-entry pattern, with no internal pair of lines that would split it. -/
def wfEntryB : List String → Bool
  | [] => false
  | l :: t => entryNumberMatch l && chainNoSplit (l :: t)

/-- Every entry that is followed by another entry ends with the blank line
`"\n"` (equivalently: every entry after the first is preceded by a blank
line). -/
def sepOkB : List (List String) → Bool
  | e :: e' :: t => (e.getLast? == some "\n") && sepOkB (e' :: t)
  | _ => true

/-- The `last_line_empty` flag after processing the lines `ls` starting
from flag value `f`. -/
def flagAfter (f : Bool) : List String → Bool
  | [] => f
  | l :: t => flagAfter (l == "\n") t

/-- The blocks emitted by the script, given the loop's final state: the
emitted list plus the unconditionally appended final buffer. -/
def segFinish (s : SegState) : List String := s.entries ++ [s.entry]

/-! ### Step 3: the field extractor (`entry_regex`)

The verbose pattern is, with insignificant whitespace removed:
`(?P<id>^[1-9]+[0-9]*)\.\s*(?:(?:\*\*\[(?P<title1>[^\]]*)\]\((?P<link>.+)\).\*\*)|(?:\*\*(?P<title2>[^*]*).\*\*))\s*(?:(?P<year>[0-9]{4,4})\.)?\s*(?:(?P<pages>[0-9]+)\s+pages\.)?\s*(?s:(?P<description>.*[^\n]))?`
Everything after the title alternation always matches (the remaining
groups are optional and `\s*` matches the empty string), so the regex
engine never backtracks into an already decided group and each piece can
be resolved greedily and locally. -/
/-- The raw group dictionary produced by `match.groupdict()`. -/
structure GroupDict where
  id : String
  title1 : Option String
  link : Option String
  title2 : Option String
  year : Option String
  pages : Option String
  description : Option String
deriving DecidableEq, Repr

/-- The normalized record used for the calibredb calls. -/
structure BookRecord where
  id : String
  title : Option String
  link : Option String
  year : Option String
  pages : Option String
  description : Option String
deriving DecidableEq, Repr

/-- `(?P<id>^[1-9]+[0-9]*)\.` : the leading digit run (first digit
nonzero) followed by a literal period.  Backtracking cannot shorten the
digit run because a digit is never `'.'`. -/
def parseId : List Char → Option (List Char × List Char)
  | [] => none
  | c :: rest =>
    if isDigit19 c then
      match rest.dropWhile isDigit09 with
      | '.' :: r2 => some (c :: rest.takeWhile isDigit09, r2)
      | _ => none
    else none

/-- Greedy resolution of `(?P<link>.+)\).\*\*` after the opening `](`:
find the rightmost split `link ++ ')' :: c :: '*' :: '*' :: rest` where
the link characters and `c` are not newlines (`.` does not match `\n`
here), preferring longer links as the greedy `.+` does.  The returned
link may be empty; the caller rejects that case (`.+` needs at least one
character). -/
def linkEnd : List Char → Option (List Char × List Char)
  | ')' :: c :: '*' :: '*' :: rest =>
    match linkEnd (c :: '*' :: '*' :: rest) with
    | some (ext, r) => some (')' :: ext, r)
    | none => if c = '\n' then none else some ([], rest)
  | x :: xs =>
    if x = '\n' then none
    else
      match linkEnd xs with
      | some (ext, r) => some (x :: ext, r)
      | none => none
  | [] => none

/-- The second title alternative `\*\*(?P<title2>[^*]*).\*\*`, resolved:
`[^*]*` greedily takes the maximal run of non-`'*'` characters; then the
unescaped `.` matches one further non-newline character — the `'*'`
right after the run when three stars follow, otherwise the run's last
character is given back for it — and then the literal `**` follows. -/
def parseTitle2 (cs : List Char) : Option (List Char × List Char) :=
  match cs with
  | '*' :: '*' :: r =>
    match r.dropWhile (· != '*') with
    | '*' :: '*' :: '*' :: r2 => some (r.takeWhile (· != '*'), r2)
    | '*' :: '*' :: r2 =>
      match (r.takeWhile (· != '*')).getLast? with
      | some d => if d = '\n' then none else some ((r.takeWhile (· != '*')).dropLast, r2)
      | none => none
    | _ => none
  | _ => none

/-- Result of the title alternation: either the linked form (groups
`title1` and `link`) or the plain form (group `title2`). -/
inductive TitleRes where
  | withLink (t lnk : List Char) : TitleRes
  | plain (t : List Char) : TitleRes
deriving DecidableEq, Repr

/-- The plain-title alternative tried from position `r`. -/
def titleFallback (r : List Char) : Option (TitleRes × List Char) :=
  (parseTitle2 r).map (fun p => (TitleRes.plain p.1, p.2))

/-- `\s*` followed by the title alternation
`(?:\*\*\[(?P<title1>[^\]]*)\]\((?P<link>.+)\).\*\*)|(?:\*\*(?P<title2>[^*]*).\*\*)`:
skip whitespace greedily, try the linked form, and on any failure try the
plain form at the same position.  (Giving whitespace back cannot help:
both alternatives begin with `'*'`, which is not whitespace; `[^\]]*`
stops at the first `']'` and cannot be usefully shortened because `']'`
must follow it.) -/
def parseTitle (cs : List Char) : Option (TitleRes × List Char) :=
  match cs.dropWhile isWs with
  | '*' :: '*' :: '[' :: r1 =>
    match r1.dropWhile (· != ']') with
    | ']' :: '(' :: r3 =>
      match linkEnd r3 with
      | some (lnk, rest) =>
        if lnk = [] then titleFallback (cs.dropWhile isWs)
        else some (TitleRes.withLink (r1.takeWhile (· != ']')) lnk, rest)
      | none => titleFallback (cs.dropWhile isWs)
    | _ => titleFallback (cs.dropWhile isWs)
  | _ => titleFallback (cs.dropWhile isWs)

/-- `\s*(?:(?P<year>[0-9]{4,4})\.)?` : skip whitespace; the optional
group needs exactly four digits and a period, otherwise it is skipped and
the position stays after the whitespace. -/
def parseYear (cs : List Char) : Option (List Char) × List Char :=
  match cs.dropWhile isWs with
  | d1 :: d2 :: d3 :: d4 :: '.' :: rest =>
    if isDigit09 d1 && isDigit09 d2 && isDigit09 d3 && isDigit09 d4 then
      (some [d1, d2, d3, d4], rest)
    else (none, cs.dropWhile isWs)
  | _ => (none, cs.dropWhile isWs)

/-- `\s*(?:(?P<pages>[0-9]+)\s+pages\.)?` : skip whitespace; the optional
group takes a maximal nonempty digit run, a maximal nonempty whitespace
run, then the literal `pages.`; otherwise it is skipped and the position
stays after the initial whitespace. -/
def parsePages (cs : List Char) : Option (List Char) × List Char :=
  match (cs.dropWhile isWs).takeWhile isDigit09,
      ((cs.dropWhile isWs).dropWhile isDigit09).takeWhile isWs,
      ((cs.dropWhile isWs).dropWhile isDigit09).dropWhile isWs with
  | _ :: _, _ :: _, 'p' :: 'a' :: 'g' :: 'e' :: 's' :: '.' :: rest =>
    (some ((cs.dropWhile isWs).takeWhile isDigit09), rest)
  | _, _, _ => (none, cs.dropWhile isWs)

/-- Strip every trailing newline character: the group `.*[^\n]` (with the
inline DOTALL flag) matches everything up to the last non-newline
character. -/
def dropTrailingNl (l : List Char) : List Char :=
  (l.reverse.dropWhile (· == '\n')).reverse

/-- `\s*(?s:(?P<description>.*[^\n]))?` : skip whitespace greedily; if
anything remains, the group matches up to the last non-newline character;
if nothing remains, the optional group is skipped and the field is
absent.  (The whitespace skip is not given back when the group fails
because a complete match already exists with the group skipped.) -/
def parseDescriptionL (cs : List Char) : Option (List Char) :=
  match cs.dropWhile isWs with
  | [] => none
  | c :: r => some (dropTrailingNl (c :: r))

/-- The rest of the pattern after the id: title alternation, optional
year, optional pages, optional description, and the assembled
`groupdict()` (the group in the untaken title alternative is `None`). -/
def parseAfterId (ds : List Char) (cs : List Char) : Option GroupDict :=
  match parseTitle cs with
  | none => none
  | some (tr, r1) =>
    match tr with
    | TitleRes.withLink t lnk =>
      some { id := String.mk ds, title1 := some (String.mk t),
             link := some (String.mk lnk), title2 := none,
             year := (parseYear r1).1.map String.mk,
             pages := (parsePages (parseYear r1).2).1.map String.mk,
             description :=
               (parseDescriptionL (parsePages (parseYear r1).2).2).map String.mk }
    | TitleRes.plain t =>
      some { id := String.mk ds, title1 := none, link := none,
             title2 := some (String.mk t),
             year := (parseYear r1).1.map String.mk,
             pages := (parsePages (parseYear r1).2).1.map String.mk,
             description :=
               (parseDescriptionL (parsePages (parseYear r1).2).2).map String.mk }

/-- `entry_regex.search(entry)` : the `^` inside the id group anchors the
match at position 0 (no `re.MULTILINE`), so the search succeeds or fails
there. -/
def parseEntryL (cs : List Char) : Option GroupDict :=
  match parseId cs with
  | none => none
  | some (ds, rest) => parseAfterId ds rest

def parseEntry (entry : String) : Option GroupDict := parseEntryL entry.toList

/-- The normalization after `groupdict()`:
`dict['title'] = dict['title1'] if dict['title1'] is not None else dict['title2']`,
then the `title1`/`title2` keys are dropped. -/
def normalizeGroups (g : GroupDict) : BookRecord :=
  { id := g.id,
    title := match g.title1 with | some t => some t | none => g.title2,
    link := g.link, year := g.year, pages := g.pages,
    description := g.description }

/-- The extractor for one entry block: pattern match followed by
normalization. -/
def extractEntry (entry : String) : Option BookRecord :=
  (parseEntry entry).map normalizeGroups

/-! ### C6: any subset of the optional fields may be absent -/
/-- A valid id for `[1-9]+[0-9]*`: a nonempty digit run whose first digit
is nonzero. -/
def validDigitsB : List Char → Bool
  | [] => false
  | c :: t => isDigit19 c && t.all isDigit09

/-- A block in the bibliography convention, with each optional field
present or absent independently: the id, `". "`, a title in one of the
two forms, then optionally `" 2001."`, optionally `" 42 pages."`,
optionally a description on the next line, and the final newline. -/
def mkBlockL (ds : List Char) (withLink yr pg de : Bool) : List Char :=
  ds ++ '.' :: ' ' ::
    ((cond withLink "**[Foo](bar.pdf).**".toList "**Bar.**".toList)
      ++ (cond yr " 2001.".toList [])
      ++ (cond pg " 42 pages.".toList [])
      ++ (cond de "\nSome text.".toList [])
      ++ ['\n'])

/-- The record such a block should extract to: each absent optional field
is `none`. -/
def expectedRec (ds : List Char) (withLink yr pg de : Bool) : BookRecord :=
  { id := String.mk ds,
    title := some (cond withLink "Foo" "Bar"),
    link := cond withLink (some "bar.pdf") none,
    year := cond yr (some "2001") none,
    pages := cond pg (some "42") none,
    description := cond de (some "Some text.") none }

/-! ### Step 4: the import driver -/
/-- `calibredb_pubdate_args(dict)`: `['--field', f'pubdate:{dict["year"]}-01-01']`
when the year is present, the empty list when it is `None`. -/
def calibredb_pubdate_args (dict : BookRecord) : List String :=
  match dict.year with
  | some y => ["--field", "pubdate:" ++ y ++ "-01-01"]
  | none => []

/-- Consume an exact literal from the front of the input. -/
def dropLit : List Char → List Char → Option (List Char)
  | [], cs => some cs
  | _ :: _, [] => none
  | l :: ls, c :: cs => if c = l then dropLit ls cs else none

/-- Try `Added book ids:\s+([0-9]+)` at the current position: the
literal, a maximal nonempty whitespace run, then a maximal nonempty digit
run (the group).  Returns the group and the rest after the match.
(Backtracking adds nothing: whitespace and digits are disjoint.) -/
def matchAddedAt (cs : List Char) : Option (List Char × List Char) :=
  match dropLit "Added book ids:".toList cs with
  | none => none
  | some r1 =>
    match r1.takeWhile isWs, (r1.dropWhile isWs).takeWhile isDigit09 with
    | _ :: _, _ :: _ =>
      some ((r1.dropWhile isWs).takeWhile isDigit09, (r1.dropWhile isWs).dropWhile isDigit09)
    | _, _ => none

/-- The `re.findall` scan: try the pattern at every position from the
left, emit each match's group, and continue after the match (matches do
not overlap).  The fuel is the remaining length; every step consumes at
least one character, so the initial length always suffices. -/
def scanAdded : Nat → List Char → List String
  | 0, _ => []
  | _, [] => []
  | fuel + 1, c :: cs =>
    match matchAddedAt (c :: cs) with
    | some (ds, rest) => String.mk ds :: scanAdded fuel rest
    | none => scanAdded fuel cs

/-- `re.findall(r'Added book ids:\s+([0-9]+)', run_result.stdout)`. -/
def addedIds (out : String) : List String := scanAdded out.toList.length out.toList

/-- The `[0]` element of the findall result, when it exists. -/
def firstAddedId (out : String) : Option String := (addedIds out).head?

/-- The step-4 loop, with the `calibredb add` subprocess abstracted by an
oracle `out` giving the captured stdout for each record.  Records are
processed in source order; `re.findall(...)[0]` on a record whose stdout
contains no match raises an uncaught `IndexError` that aborts the loop.
The result is the list of records fully processed before any abort (each
paired with its extracted `calibre_id`), together with the record on
which the batch aborted, if any. -/
def importRecords (out : BookRecord → String) :
    List BookRecord → List (BookRecord × String) × Option BookRecord
  | [] => ([], none)
  | r :: rs =>
    match firstAddedId (out r) with
    | none => ([], some r)
    | some cid =>
      ((r, cid) :: (importRecords out rs).1, (importRecords out rs).2)

/-- A record with only an id, used for concrete instances. -/
def emptyRec (i : String) : BookRecord :=
  { id := i, title := none, link := none, year := none, pages := none, description := none }

/-- A concrete stdout oracle: record "1" gets a well-formed calibredb
answer, any other record an output without an id. -/
def outOracle (rec : BookRecord) : String :=
  cond (rec.id == "1") "Added book ids: 17\n" "calibredb said nothing"

/-- A concrete record carrying a year. -/
def recWithYear : BookRecord :=
  { id := "1", title := none, link := none, year := some "1999", pages := none,
    description := none }

/-! ### Theorems -/

/-! ### Basic string helpers -/
theorem strMk_append (a b : List Char) : String.mk a ++ String.mk b = String.mk (a ++ b) := rfl

theorem str_append_assoc (a b c : String) : a ++ b ++ c = a ++ (b ++ c) := by
  cases a with
  | mk la =>
    cases b with
    | mk lb =>
      cases c with
      | mk lc =>
        show String.mk (la ++ lb ++ lc) = String.mk (la ++ (lb ++ lc))
        rw [List.append_assoc]

theorem str_empty_append (s : String) : "" ++ s = s := by
  cases s with
  | mk l => rfl

theorem str_append_empty (s : String) : s ++ "" = s := by
  cases s with
  | mk l =>
    show String.mk (l ++ []) = String.mk l
    rw [List.append_nil]

theorem strJoin_cons (a : String) (l : List String) :
    String.join (a :: l) = a ++ String.join l := by
  show List.foldl (· ++ ·) ("" ++ a) l = a ++ List.foldl (· ++ ·) "" l
  rw [str_empty_append]
  induction l generalizing a with
  | nil => exact (str_append_empty a).symm
  | cons b t ih =>
    show List.foldl (· ++ ·) (a ++ b) t = a ++ List.foldl (· ++ ·) ("" ++ b) t
    rw [str_empty_append, ih (a ++ b), ih b, str_append_assoc]

theorem strJoin_nil : String.join ([] : List String) = "" := rfl

/-! ### Theorems about the segmenter state machine -/
theorem segStep_lastLineEmpty (s : SegState) (line : String) :
    (segStep s line).lastLineEmpty = (line == "\n") := by
  unfold segStep
  split <;> rfl

theorem segStep_of_flag_false (s : SegState) (line : String) (h : s.lastLineEmpty = false) :
    segStep s line =
      { lastLineEmpty := line == "\n", entry := s.entry ++ line, entries := s.entries } := by
  unfold segStep
  rw [h]
  simp

/-- C8: after processing any line, the `last_line_empty` flag is true iff
that line is exactly the single newline string `"\n"`; in particular a
whitespace-only line such as `" \n"` does not set the flag, so the line
after it is appended to the buffer instead of starting a new block. -/
theorem flag_iff_lone_newline :
    (∀ (s : SegState) (line : String),
        ((segStep s line).lastLineEmpty = true ↔ line = "\n"))
    ∧ (∀ s : SegState, (segStep s " \n").lastLineEmpty = false)
    ∧ (∀ (s : SegState) (l2 : String), entryNumberMatch l2 = true →
        segStep (segStep s " \n") l2 =
          { lastLineEmpty := l2 == "\n",
            entry := (segStep s " \n").entry ++ l2,
            entries := (segStep s " \n").entries }) := by
  refine ⟨fun s line => ?_, fun s => ?_, fun s l2 _ => ?_⟩
  · rw [segStep_lastLineEmpty]
    exact beq_iff_eq
  · rw [segStep_lastLineEmpty]
    rfl
  · exact segStep_of_flag_false _ l2 (by rw [segStep_lastLineEmpty]; rfl)

theorem flag_iff_lone_newline_witness :
    segStep (segStep { lastLineEmpty := false, entry := "", entries := [] } " \n") "12. x\n" =
      { lastLineEmpty := ("12. x\n" == "\n"),
        entry := (segStep { lastLineEmpty := false, entry := "", entries := [] } " \n").entry
          ++ "12. x\n",
        entries := (segStep { lastLineEmpty := false, entry := "", entries := [] } " \n").entries } :=
  flag_iff_lone_newline.2.2 { lastLineEmpty := false, entry := "", entries := [] } "12. x\n"
    (by decide)

/-- C7: a numbered line whose immediately preceding line is non-blank does
not start a new block: after any line `l1 ≠ "\n"`, a following line `l2`
matching the entry-number pattern is appended to the current buffer as body
text, and no block is emitted. -/
theorem numbered_line_after_nonblank_appends (s : SegState) (l1 l2 : String)
    (h1 : l1 ≠ "\n") (_h2 : entryNumberMatch l2 = true) :
    segStep (segStep s l1) l2 =
      { lastLineEmpty := l2 == "\n",
        entry := (segStep s l1).entry ++ l2,
        entries := (segStep s l1).entries } := by
  have hflag : (segStep s l1).lastLineEmpty = false := by
    rw [segStep_lastLineEmpty]
    exact beq_eq_false_iff_ne.mpr h1
  exact segStep_of_flag_false _ l2 hflag

theorem numbered_line_after_nonblank_appends_witness :
    segStep (segStep { lastLineEmpty := false, entry := "", entries := [] } "Some text.\n")
        "12. Not really an entry\n" =
      { lastLineEmpty := ("12. Not really an entry\n" == "\n"),
        entry := (segStep { lastLineEmpty := false, entry := "", entries := [] }
          "Some text.\n").entry ++ "12. Not really an entry\n",
        entries := (segStep { lastLineEmpty := false, entry := "", entries := [] }
          "Some text.\n").entries } :=
  numbered_line_after_nonblank_appends { lastLineEmpty := false, entry := "", entries := [] }
    "Some text.\n" "12. Not really an entry\n" (by decide) (by decide)

theorem checkDigitsDotSpace_iff (cs : List Char) :
    checkDigitsDotSpace cs = true ↔
      ∃ ds rest, cs = ds ++ '.' :: ' ' :: rest ∧ ∀ c ∈ ds, isDigit09 c = true := by
  induction cs with
  | nil =>
    simp only [checkDigitsDotSpace]
    constructor
    · intro h
      exact absurd h (by decide)
    · rintro ⟨ds, rest, h, -⟩
      cases ds <;> simp at h
  | cons c t ih =>
    cases t with
    | nil =>
      simp only [checkDigitsDotSpace]
      constructor
      · intro h
        exact absurd h (by decide)
      · rintro ⟨ds, rest, h, -⟩
        cases ds with
        | nil => simp at h
        | cons a ds' =>
          rw [List.cons_append] at h
          injection h with h1 h2
          cases ds' <;> simp at h2
    | cons d rest =>
      simp only [checkDigitsDotSpace, Bool.or_eq_true, Bool.and_eq_true, decide_eq_true_eq]
      constructor
      · rintro (⟨hc, hd⟩ | ⟨hdig, hrec⟩)
        · exact ⟨[], rest, by rw [hc, hd]; rfl, by intro c hc'; simp at hc'⟩
        · obtain ⟨ds, r2, heq, hall⟩ := ih.mp hrec
          refine ⟨c :: ds, r2, by rw [List.cons_append, heq], ?_⟩
          intro x hx
          rcases List.mem_cons.mp hx with h | h
          · rw [h]; exact hdig
          · exact hall x h
      · rintro ⟨ds, r2, heq, hall⟩
        cases ds with
        | nil =>
          injection heq with h1 h2
          injection h2 with h3 h4
          exact Or.inl ⟨h1, h3⟩
        | cons a ds' =>
          rw [List.cons_append] at heq
          injection heq with h1 h2
          refine Or.inr ⟨?_, ih.mpr ⟨ds', r2, h2, fun x hx => hall x (List.mem_cons_of_mem a hx)⟩⟩
          rw [h1]
          exact hall a (List.mem_cons_self a ds')

theorem entryNumberMatch_iff (line : String) :
    entryNumberMatch line = true ↔
      ∃ d ds rest, line.toList = d :: (ds ++ '.' :: ' ' :: rest)
        ∧ isDigit19 d = true ∧ ∀ c ∈ ds, isDigit09 c = true := by
  unfold entryNumberMatch
  cases hl : line.toList with
  | nil =>
    constructor
    · intro h
      exact absurd h (by decide)
    · rintro ⟨d, ds, rest, h, -⟩
      simp at h
  | cons c t =>
    rw [Bool.and_eq_true, checkDigitsDotSpace_iff]
    constructor
    · rintro ⟨h19, ds, rest, heq, hall⟩
      exact ⟨c, ds, rest, by rw [heq], h19, hall⟩
    · rintro ⟨d, ds, rest, heq, h19, hall⟩
      injection heq with h1 h2
      exact ⟨h1 ▸ h19, ds, rest, h2, hall⟩

/-- C4 counterexample: the claim says the new-entry test succeeds iff the
line starts with one or more digits followed by a period and a space; the
line `"0. x"` starts with a digit, a period and a space, yet the code's
pattern `^[1-9]+[0-9]*\. ` rejects it because its first digit is zero. -/
theorem entry_test_claim_false :
    specLeadingNumberTest "0. x" = true ∧ entryNumberMatch "0. x" = false
    ∧ ¬ (∀ line : String, entryNumberMatch line = specLeadingNumberTest line) := by
  refine ⟨by decide, by decide, fun h => absurd (h "0. x") (by decide)⟩

/-- C4 amended: the new-entry test succeeds iff the line starts with a
nonzero digit, further digits, then a period and a space; combined with the
previous-line-blank flag, a line passing the test after a blank line ends
the current buffer (excluding that line) as an emitted block and starts a
new buffer with that line, and otherwise the line is appended to the
current buffer. -/
theorem entry_test_and_split :
    (∀ line : String, entryNumberMatch line = true ↔
      ∃ d ds rest, line.toList = d :: (ds ++ '.' :: ' ' :: rest)
        ∧ isDigit19 d = true ∧ ∀ c ∈ ds, isDigit09 c = true)
    ∧ (∀ (s : SegState) (line : String), s.lastLineEmpty = true →
        entryNumberMatch line = true →
        segStep s line =
          { lastLineEmpty := line == "\n", entry := line,
            entries := s.entries ++ [s.entry] })
    ∧ (∀ (s : SegState) (line : String),
        (s.lastLineEmpty && entryNumberMatch line) = false →
        segStep s line =
          { lastLineEmpty := line == "\n", entry := s.entry ++ line,
            entries := s.entries }) := by
  refine ⟨entryNumberMatch_iff, fun s line hf hm => ?_, fun s line h => ?_⟩
  · unfold segStep
    rw [hf, hm]
    simp
  · unfold segStep
    rw [h]
    simp

theorem entry_test_and_split_witness :
    segStep { lastLineEmpty := true, entry := "buf\n", entries := [] } "3. x\n" =
      { lastLineEmpty := ("3. x\n" == "\n"), entry := "3. x\n",
        entries := [] ++ ["buf\n"] } :=
  entry_test_and_split.2.1 { lastLineEmpty := true, entry := "buf\n", entries := [] } "3. x\n"
    rfl (by decide)

theorem match_ne_newline {l : String} (h : entryNumberMatch l = true) : (l == "\n") = false := by
  cases hb : l == "\n"
  · rfl
  · rw [beq_iff_eq.mp hb] at h
    exact absurd h (by decide)

theorem strJoin_append_singleton (xs : List String) (x : String) :
    String.join (xs ++ [x]) = String.join xs ++ x := by
  induction xs with
  | nil =>
    rw [List.nil_append, strJoin_cons, strJoin_nil, str_append_empty, str_empty_append]
  | cons a t ih =>
    rw [List.cons_append, strJoin_cons, ih, strJoin_cons, str_append_assoc]

theorem chainNoSplit_tail {l : String} {t : List String}
    (h : chainNoSplit (l :: t) = true) : chainNoSplit t = true := by
  cases t with
  | nil => rfl
  | cons b t' => exact ((Bool.and_eq_true _ _).mp h).2

theorem flagAfter_cons (f : Bool) (l : String) (t : List String) :
    flagAfter f (l :: t) = flagAfter (l == "\n") t := rfl

theorem flagAfter_getLast {ls : List String} {x : String} (f : Bool)
    (h : ls.getLast? = some x) : flagAfter f ls = (x == "\n") := by
  induction ls generalizing f with
  | nil => simp at h
  | cons l t ih =>
    cases t with
    | nil =>
      have h1 : ([l] : List String).getLast? = some l := by simp
      rw [h1] at h
      injection h with h
      rw [← h]
      rfl
    | cons b t' =>
      rw [List.getLast?_cons_cons] at h
      exact ih (l == "\n") h

/-- Pushing a run of lines with no split condition through the loop only
appends text to the buffer. -/
theorem foldl_noSplit (ls : List String) (s : SegState)
    (h0 : ∀ l, ls.head? = some l → s.lastLineEmpty = true → entryNumberMatch l = false)
    (hch : chainNoSplit ls = true) :
    ls.foldl segStep s =
      { lastLineEmpty := flagAfter s.lastLineEmpty ls,
        entry := s.entry ++ String.join ls,
        entries := s.entries } := by
  induction ls generalizing s with
  | nil =>
    cases s
    simp [flagAfter, strJoin_nil, str_append_empty]
  | cons l t ih =>
    have hstep : segStep s l =
        { lastLineEmpty := l == "\n", entry := s.entry ++ l, entries := s.entries } := by
      unfold segStep
      cases hf : s.lastLineEmpty
      · simp
      · rw [h0 l rfl hf]
        simp
    have h0' : ∀ l2, t.head? = some l2 → ((l == "\n") = true) → entryNumberMatch l2 = false := by
      intro l2 hh hl
      cases t with
      | nil => simp at hh
      | cons b t' =>
        injection hh with hb
        have hp : noSplitPairB l b = true := ((Bool.and_eq_true _ _).mp hch).1
        unfold noSplitPairB at hp
        rw [hl, Bool.true_and, Bool.not_eq_eq_eq_not, Bool.not_true] at hp
        rw [← hb]
        exact hp
    rw [List.foldl_cons, hstep, ih _ h0' (chainNoSplit_tail hch)]
    simp only [flagAfter_cons, strJoin_cons, str_append_assoc]

/-- Running a list of well-formed, blank-separated entries from a state
whose flag is set emits the buffer and then one block per entry. -/
theorem run_entries (es : List (List String)) (b : String) (acc : List String)
    (hwf : ∀ e ∈ es, wfEntryB e = true) (hsep : sepOkB es = true) :
    segFinish (es.flatten.foldl segStep { lastLineEmpty := true, entry := b, entries := acc }) =
      acc ++ b :: es.map String.join := by
  induction es generalizing b acc with
  | nil => rfl
  | cons e rest ih =>
    have hwfe : wfEntryB e = true := hwf e (List.mem_cons_self e rest)
    cases e with
    | nil => exact absurd hwfe (by decide)
    | cons l t =>
      have hm : entryNumberMatch l = true := ((Bool.and_eq_true _ _).mp hwfe).1
      have hch : chainNoSplit (l :: t) = true := ((Bool.and_eq_true _ _).mp hwfe).2
      have hstep : segStep { lastLineEmpty := true, entry := b, entries := acc } l =
          { lastLineEmpty := false, entry := l, entries := acc ++ [b] } := by
        unfold segStep
        rw [hm, match_ne_newline hm]
        simp
      have hrun : (t.foldl segStep { lastLineEmpty := false, entry := l, entries := acc ++ [b] }) =
          { lastLineEmpty := flagAfter false t, entry := l ++ String.join t,
            entries := acc ++ [b] } :=
        foldl_noSplit t _ (by intro l2 _ hfalse; simp at hfalse) (chainNoSplit_tail hch)
      rw [List.flatten_cons, List.foldl_append, List.foldl_cons, hstep, hrun]
      cases rest with
      | nil =>
        simp [segFinish, strJoin_cons, List.append_assoc]
      | cons e' rest' =>
        have hlast : (l :: t).getLast? = some "\n" :=
          beq_iff_eq.mp ((Bool.and_eq_true _ _).mp hsep).1
        have hflag : flagAfter false t = true := by
          cases t with
          | nil =>
            have h1 : ([l] : List String).getLast? = some l := by simp
            rw [h1] at hlast
            injection hlast with h
            rw [h] at hm
            exact absurd hm (by decide)
          | cons a t' =>
            rw [List.getLast?_cons_cons] at hlast
            rw [flagAfter_getLast false hlast]
            rfl
        rw [hflag, ih (l ++ String.join t) (acc ++ [b])
          (fun e he => hwf e (List.mem_cons_of_mem _ he)) ((Bool.and_eq_true _ _).mp hsep).2]
        simp [strJoin_cons]

/-- C2: for every document that is the concatenation of well-formed entry
blocks — each entry beginning with a line that the new-entry pattern
matches, every entry that is followed by another ending with the blank
line `"\n"` (so that every entry after the first is preceded by a blank
line), and no entry containing an internal blank-line/numbered-line pair —
the segmenter emits exactly one block per entry, each block being exactly
the entry's text (hence containing its bold title marker unmodified), and
in particular exactly as many blocks as entries. -/
theorem segmenter_blocks_entries (es : List (List String)) (hne : es ≠ [])
    (hwf : ∀ e ∈ es, wfEntryB e = true) (hsep : sepOkB es = true) :
    segmentLines es.flatten = es.map String.join
    ∧ (segmentLines es.flatten).length = es.length := by
  have main : segmentLines es.flatten = es.map String.join := by
    cases es with
    | nil => exact absurd rfl hne
    | cons e rest =>
      have hwfe : wfEntryB e = true := hwf e (List.mem_cons_self e rest)
      cases e with
      | nil => exact absurd hwfe (by decide)
      | cons l t =>
        have hm : entryNumberMatch l = true := ((Bool.and_eq_true _ _).mp hwfe).1
        have hch : chainNoSplit (l :: t) = true := ((Bool.and_eq_true _ _).mp hwfe).2
        show segFinish (segRun ((l :: t) :: rest).flatten) = _
        unfold segRun
        have hstep : segStep { lastLineEmpty := false, entry := "", entries := [] } l =
            { lastLineEmpty := false, entry := l, entries := [] } := by
          rw [segStep_of_flag_false _ _ rfl, match_ne_newline hm, str_empty_append]
        have hrun : (t.foldl segStep { lastLineEmpty := false, entry := l, entries := [] }) =
            { lastLineEmpty := flagAfter false t, entry := l ++ String.join t,
              entries := [] } :=
          foldl_noSplit t _ (by intro l2 _ hfalse; simp at hfalse) (chainNoSplit_tail hch)
        rw [List.flatten_cons, List.foldl_append, List.foldl_cons, hstep, hrun]
        cases rest with
        | nil => simp [segFinish, strJoin_cons]
        | cons e' rest' =>
          have hlast : (l :: t).getLast? = some "\n" :=
            beq_iff_eq.mp ((Bool.and_eq_true _ _).mp hsep).1
          have hflag : flagAfter false t = true := by
            cases t with
            | nil =>
              have h1 : ([l] : List String).getLast? = some l := by simp
              rw [h1] at hlast
              injection hlast with h
              rw [h] at hm
              exact absurd hm (by decide)
            | cons a t' =>
              rw [List.getLast?_cons_cons] at hlast
              rw [flagAfter_getLast false hlast]
              rfl
          rw [hflag, run_entries (e' :: rest') (l ++ String.join t) []
            (fun e he => hwf e (List.mem_cons_of_mem _ he)) ((Bool.and_eq_true _ _).mp hsep).2]
          simp [strJoin_cons]
  exact ⟨main, by rw [main, List.length_map]⟩

theorem segmenter_blocks_entries_witness :
    segmentLines ([["1. **A.**\n", "\n"], ["2. **B.**\n"]] : List (List String)).flatten =
        ([["1. **A.**\n", "\n"], ["2. **B.**\n"]] : List (List String)).map String.join
    ∧ (segmentLines ([["1. **A.**\n", "\n"], ["2. **B.**\n"]] :
        List (List String)).flatten).length =
        ([["1. **A.**\n", "\n"], ["2. **B.**\n"]] : List (List String)).length :=
  segmenter_blocks_entries [["1. **A.**\n", "\n"], ["2. **B.**\n"]]
    (by decide) (by decide) (by decide)

/-- The first emitted block only ever grows at its right end, so its start
is stable under further processing. -/
theorem firstBlock_stable (l : String) (ls : List String) (s : SegState)
    (h : ∃ t, (s.entries ++ [s.entry]).head? = some (l ++ t)) :
    ∃ t, ((ls.foldl segStep s).entries ++ [(ls.foldl segStep s).entry]).head? = some (l ++ t) := by
  induction ls generalizing s with
  | nil => exact h
  | cons a t' ih =>
    rw [List.foldl_cons]
    apply ih
    obtain ⟨t0, ht⟩ := h
    unfold segStep
    split
    · refine ⟨t0, ?_⟩
      show ((s.entries ++ [s.entry]) ++ [a]).head? = some (l ++ t0)
      rw [List.head?_append, ht]
      rfl
    · cases hE : s.entries with
      | nil =>
        rw [hE, List.nil_append, List.head?_cons, Option.some_inj] at ht
        refine ⟨t0 ++ a, ?_⟩
        show ([] ++ [s.entry ++ a]).head? = some (l ++ (t0 ++ a))
        rw [List.nil_append, List.head?_cons, ht, str_append_assoc]
      | cons x xs =>
        rw [hE, List.cons_append, List.head?_cons] at ht
        refine ⟨t0, ?_⟩
        show ((x :: xs) ++ [s.entry ++ a]).head? = some (l ++ t0)
        rw [List.cons_append, List.head?_cons]
        exact ht

/-- C10: the concatenation of all emitted blocks (including the
unconditionally emitted final buffer) equals the concatenation of the
input lines — segmentation never drops, duplicates or reorders text — and
the first emitted block starts with the first input line, so any preamble
before the first recognized entry sits at the start of the first block. -/
theorem segmenter_preserves_text :
    (∀ lines : List String, String.join (segmentLines lines) = String.join lines)
    ∧ ∀ (l : String) (ls : List String),
        ∃ t, (segmentLines (l :: ls)).head? = some (l ++ t) := by
  have key : ∀ (ls : List String) (s : SegState),
      String.join (segFinish (ls.foldl segStep s)) =
        String.join (segFinish s) ++ String.join ls := by
    intro ls
    induction ls with
    | nil =>
      intro s
      rw [List.foldl_nil, strJoin_nil, str_append_empty]
    | cons a t ih =>
      intro s
      rw [List.foldl_cons, ih (segStep s a), strJoin_cons, ← str_append_assoc]
      have hone : String.join (segFinish (segStep s a)) = String.join (segFinish s) ++ a := by
        unfold segStep
        split
        · show String.join ((s.entries ++ [s.entry]) ++ [a]) =
            String.join (s.entries ++ [s.entry]) ++ a
          rw [strJoin_append_singleton]
        · show String.join (s.entries ++ [s.entry ++ a]) =
            String.join (s.entries ++ [s.entry]) ++ a
          rw [strJoin_append_singleton, strJoin_append_singleton, str_append_assoc]
      rw [hone]
  constructor
  · intro lines
    have h := key lines { lastLineEmpty := false, entry := "", entries := [] }
    show String.join (segFinish (segRun lines)) = String.join lines
    unfold segRun
    rw [h]
    show String.join ([""]) ++ String.join lines = String.join lines
    rw [strJoin_cons, strJoin_nil, str_append_empty, str_empty_append]
  · intro l ls
    show ∃ t, ((segRun (l :: ls)).entries ++ [(segRun (l :: ls)).entry]).head? = some (l ++ t)
    unfold segRun
    rw [List.foldl_cons]
    apply firstBlock_stable l ls
    rw [segStep_of_flag_false _ _ rfl, str_empty_append]
    exact ⟨"", by rw [List.nil_append, List.head?_cons, str_append_empty]⟩

/-- C1: for the block `"5. **[Foo](bar.pdf).** 2001. 42 pages.\nSome text.\n"`
the `entry_regex` match succeeds with groups id "5", title1 "Foo",
link "bar.pdf", year "2001", pages "42", description "Some text.", and the
title1/title2 normalization yields exactly the claimed record. -/
theorem extract_spec_block :
    parseEntry "5. **[Foo](bar.pdf).** 2001. 42 pages.\nSome text.\n" =
      some { id := "5", title1 := some "Foo", link := some "bar.pdf", title2 := none,
             year := some "2001", pages := some "42", description := some "Some text." }
    ∧ extractEntry "5. **[Foo](bar.pdf).** 2001. 42 pages.\nSome text.\n" =
      some { id := "5", title := some "Foo", link := some "bar.pdf",
             year := some "2001", pages := some "42", description := some "Some text." } :=
  ⟨by decide, by decide⟩

/-! ### C5: the description group and trailing newlines -/
theorem dropWhile_head_not (p : Char → Bool) {l : List Char} {a : Char} {r : List Char}
    (h : l.dropWhile p = a :: r) : p a = false := by
  induction l with
  | nil => simp at h
  | cons x xs ih =>
    rw [List.dropWhile_cons] at h
    cases hp : p x with
    | true =>
      rw [hp] at h
      simp only [if_true] at h
      exact ih h
    | false =>
      rw [hp] at h
      simp only [Bool.false_eq_true, if_false] at h
      injection h with h1 _
      rw [← h1]
      exact hp

theorem takeWhile_nl_replicate (l : List Char) :
    l.takeWhile (· == '\n') = List.replicate (l.takeWhile (· == '\n')).length '\n' := by
  induction l with
  | nil => rfl
  | cons c t ih =>
    rw [List.takeWhile_cons]
    cases hc : (c == '\n') with
    | false => simp
    | true =>
      simp only [if_true]
      rw [List.length_cons, List.replicate_succ, beq_iff_eq.mp hc]
      exact congrArg (List.cons '\n') ih

theorem rev_takeWhile_nl (l : List Char) :
    (l.takeWhile (· == '\n')).reverse = List.replicate (l.takeWhile (· == '\n')).length '\n' := by
  conv_lhs => rw [takeWhile_nl_replicate l]
  rw [List.reverse_replicate]

/-- C5 counterexample: the claim says exactly one trailing newline is
removed, so a block whose remaining text ends in two newlines should keep
one; on `"5. **[Foo](bar.pdf).** 2001. 42 pages.\nSome text.\n\n"` the
extractor in fact strips both newlines: the description is
`"Some text."`, not `"Some text.\n"`. -/
theorem description_one_newline_claim_false :
    extractEntry "5. **[Foo](bar.pdf).** 2001. 42 pages.\nSome text.\n\n" =
      some { id := "5", title := some "Foo", link := some "bar.pdf", year := some "2001",
             pages := some "42", description := some "Some text." }
    ∧ extractEntry "5. **[Foo](bar.pdf).** 2001. 42 pages.\nSome text.\n\n" ≠
      some { id := "5", title := some "Foo", link := some "bar.pdf", year := some "2001",
             pages := some "42", description := some "Some text.\n" } :=
  ⟨by decide, by decide⟩

/-- C5 amended: for every matched block the description is the remaining
text after the whitespace skip with ALL trailing newline characters
removed (in particular, remaining text ending in two newlines yields a
description ending in none), it is absent exactly when nothing but
whitespace remains, and blank lines inside the block are kept within the
description. -/
theorem description_strips_trailing_newlines :
    (∀ cs d : List Char, parseDescriptionL cs = some d →
      ∃ k, cs.dropWhile isWs = d ++ List.replicate k '\n'
        ∧ d ≠ [] ∧ d.getLast? ≠ some '\n')
    ∧ (∀ cs : List Char, parseDescriptionL cs = none → cs.dropWhile isWs = [])
    ∧ extractEntry "7. **Bar.** First line.\n\nSecond line.\n" =
        some { id := "7", title := some "Bar", link := none, year := none, pages := none,
               description := some "First line.\n\nSecond line." }
    ∧ extractEntry "9. **Bar.** Ends two.\n\n" =
        some { id := "9", title := some "Bar", link := none, year := none, pages := none,
               description := some "Ends two." } := by
  refine ⟨?_, ?_, by decide, by decide⟩
  · intro cs d h
    unfold parseDescriptionL at h
    cases hr : cs.dropWhile isWs with
    | nil =>
      rw [hr] at h
      simp at h
    | cons c r =>
      rw [hr] at h
      simp only [Option.some_inj] at h
      have hL : (c :: r) = d ++ List.replicate ((c :: r).reverse.takeWhile (· == '\n')).length '\n' := by
        rw [← h]
        unfold dropTrailingNl
        rw [← rev_takeWhile_nl, ← List.reverse_append, List.takeWhile_append_dropWhile,
          List.reverse_reverse]
      have hcws : isWs c = false := dropWhile_head_not isWs hr
      have hdne : d ≠ [] := by
        intro hd
        rw [hd, List.nil_append] at hL
        have hc : c ∈ List.replicate ((c :: r).reverse.takeWhile (· == '\n')).length '\n' := by
          rw [← hL]
          exact List.mem_cons_self c r
        rw [List.eq_of_mem_replicate hc] at hcws
        exact absurd hcws (by decide)
      refine ⟨((c :: r).reverse.takeWhile (· == '\n')).length, hL, hdne, ?_⟩
      have hd : d = ((c :: r).reverse.dropWhile (· == '\n')).reverse := h.symm
      rw [hd, List.getLast?_reverse]
      cases hm : (c :: r).reverse.dropWhile (· == '\n') with
      | nil => simp
      | cons a m' =>
        rw [List.head?_cons]
        intro hcontra
        have ha : (a == '\n') = false := dropWhile_head_not (fun x => x == '\n') hm
        rw [Option.some_inj.mp hcontra] at ha
        exact absurd ha (by decide)
  · intro cs h
    unfold parseDescriptionL at h
    cases hr : cs.dropWhile isWs with
    | nil => rfl
    | cons c r =>
      rw [hr] at h
      simp at h

theorem description_strips_trailing_newlines_witness :
    ∃ k, (['A', '\n', '\n'].dropWhile isWs) = ['A'] ++ List.replicate k '\n'
      ∧ (['A'] : List Char) ≠ [] ∧ (['A'] : List Char).getLast? ≠ some '\n' :=
  description_strips_trailing_newlines.1 ['A', '\n', '\n'] ['A'] (by decide)

theorem takeWhile_append_not (p : Char → Bool) (l : List Char) (x : Char) (r : List Char)
    (hl : ∀ c ∈ l, p c = true) (hx : p x = false) :
    (l ++ x :: r).takeWhile p = l ∧ (l ++ x :: r).dropWhile p = x :: r := by
  induction l with
  | nil =>
    rw [List.nil_append, List.takeWhile_cons, List.dropWhile_cons, hx]
    simp
  | cons a t ih =>
    have ha : p a = true := hl a (List.mem_cons_self a t)
    have ht : ∀ c ∈ t, p c = true := fun c hc => hl c (List.mem_cons_of_mem a hc)
    obtain ⟨ih1, ih2⟩ := ih ht
    rw [List.cons_append, List.takeWhile_cons, List.dropWhile_cons, ha]
    simp only [if_true]
    exact ⟨by rw [ih1], ih2⟩

theorem parseId_append {ds : List Char} (rest : List Char) (h : validDigitsB ds = true) :
    parseId (ds ++ '.' :: rest) = some (ds, rest) := by
  cases ds with
  | nil => exact absurd h (by decide)
  | cons c t =>
    have h19 : isDigit19 c = true := ((Bool.and_eq_true _ _).mp h).1
    have hall : ∀ x ∈ t, isDigit09 x = true := by
      have h2 := ((Bool.and_eq_true _ _).mp h).2
      intro x hx
      exact List.all_eq_true.mp h2 x hx
    obtain ⟨htake, hdrop⟩ := takeWhile_append_not isDigit09 t '.' rest hall (by decide)
    rw [List.cons_append]
    simp only [parseId, h19, hdrop, htake, if_true]

theorem extractEntry_mk (ds : List Char) (rest : List Char) (h : validDigitsB ds = true) :
    extractEntry (String.mk (ds ++ '.' :: rest)) =
      (parseAfterId ds rest).map normalizeGroups := by
  unfold extractEntry parseEntry parseEntryL
  rw [show (String.mk (ds ++ '.' :: rest)).toList = ds ++ '.' :: rest from rfl]
  rw [parseId_append rest h]

/-- C6: for every valid id and either title form, the extraction pattern
matches for every subset of the optional fields {year, pages, description}
being present, and each absent optional field is reported as `None`; in
particular the block `"6. **Bar.**\n"` yields id "6", title "Bar" and all
other fields `None`. -/
theorem optional_fields_any_subset :
    (∀ (ds : List Char) (withLink yr pg de : Bool), validDigitsB ds = true →
      extractEntry (String.mk (mkBlockL ds withLink yr pg de)) =
        some (expectedRec ds withLink yr pg de))
    ∧ extractEntry "6. **Bar.**\n" =
        some { id := "6", title := some "Bar", link := none, year := none, pages := none,
               description := none } := by
  refine ⟨?_, by decide⟩
  intro ds withLink yr pg de h
  unfold mkBlockL expectedRec
  rw [extractEntry_mk ds _ h]
  cases withLink <;> cases yr <;> cases pg <;> cases de <;> rfl

theorem optional_fields_any_subset_witness :
    extractEntry (String.mk (mkBlockL ['6'] false false false false)) =
      some (expectedRec ['6'] false false false false) :=
  optional_fields_any_subset.1 ['6'] false false false false (by decide)

/-- C3: for every record the external identifier is the first match of
`Added book ids: <number>` against the captured stdout of the creation
command; a record whose stdout has no match aborts the whole batch (no
later record is processed), and `calibre_id` is assigned only when a
match exists. -/
theorem import_extracts_first_id :
    (∀ (out : BookRecord → String) (rs : List BookRecord),
      (∀ r ∈ rs, firstAddedId (out r) ≠ none) →
      (importRecords out rs).2 = none
        ∧ ((importRecords out rs).1).map Prod.fst = rs
        ∧ ∀ p ∈ (importRecords out rs).1, firstAddedId (out p.1) = some p.2)
    ∧ (∀ (out : BookRecord → String) (pre : List BookRecord) (r : BookRecord)
        (post : List BookRecord),
      (∀ p ∈ pre, firstAddedId (out p) ≠ none) → firstAddedId (out r) = none →
      (importRecords out (pre ++ r :: post)).2 = some r
        ∧ ((importRecords out (pre ++ r :: post)).1).map Prod.fst = pre
        ∧ ∀ p ∈ (importRecords out (pre ++ r :: post)).1,
            firstAddedId (out p.1) = some p.2) := by
  constructor
  · intro out rs h
    induction rs with
    | nil => exact ⟨rfl, rfl, by intro p hp; simp [importRecords] at hp⟩
    | cons r rs ih =>
      obtain ⟨ih1, ih2, ih3⟩ := ih (fun q hq => h q (List.mem_cons_of_mem r hq))
      cases hc : firstAddedId (out r) with
      | none => exact absurd hc (h r (List.mem_cons_self r rs))
      | some cid =>
        unfold importRecords
        rw [hc]
        refine ⟨ih1, by rw [List.map_cons, ih2], ?_⟩
        intro p hp
        rcases List.mem_cons.mp hp with hp | hp
        · rw [hp]
          exact hc
        · exact ih3 p hp
  · intro out pre r post hpre hr
    induction pre with
    | nil =>
      rw [List.nil_append]
      unfold importRecords
      rw [hr]
      exact ⟨rfl, rfl, by intro p hp; simp at hp⟩
    | cons q pre' ih =>
      obtain ⟨ih1, ih2, ih3⟩ := ih (fun p hp => hpre p (List.mem_cons_of_mem q hp))
      cases hc : firstAddedId (out q) with
      | none => exact absurd hc (hpre q (List.mem_cons_self q pre'))
      | some cid =>
        rw [List.cons_append]
        unfold importRecords
        rw [hc]
        refine ⟨ih1, by rw [List.map_cons, ih2], ?_⟩
        intro p hp
        rcases List.mem_cons.mp hp with hp | hp
        · rw [hp]
          exact hc
        · exact ih3 p hp

theorem import_extracts_first_id_witness :
    (importRecords outOracle [emptyRec "1", emptyRec "2"]).2 = some (emptyRec "2")
    ∧ ((importRecords outOracle [emptyRec "1", emptyRec "2"]).1).map Prod.fst = [emptyRec "1"]
    ∧ ∀ p ∈ (importRecords outOracle [emptyRec "1", emptyRec "2"]).1,
        firstAddedId (outOracle p.1) = some p.2 :=
  import_extracts_first_id.2 outOracle [emptyRec "1"] (emptyRec "2") [] (by decide) (by decide)

/-- C9: the publication-date renderer yields the tokens
`["--field", "pubdate:<year>-01-01"]` when the year is present — the
single field=value token being `pubdate:<year>-01-01`, e.g.
`"pubdate:1999-01-01"` for year `"1999"` — and zero tokens (the empty
list) when the year is `None`. -/
theorem pubdate_args_spec :
    (∀ (d : BookRecord) (y : String), d.year = some y →
      calibredb_pubdate_args d = ["--field", "pubdate:" ++ y ++ "-01-01"])
    ∧ (∀ d : BookRecord, d.year = none → calibredb_pubdate_args d = [])
    ∧ (∀ d : BookRecord, d.year = some "1999" →
      calibredb_pubdate_args d = ["--field", "pubdate:1999-01-01"]) := by
  refine ⟨fun d y h => ?_, fun d h => ?_, fun d h => ?_⟩
  · unfold calibredb_pubdate_args
    rw [h]
  · unfold calibredb_pubdate_args
    rw [h]
  · unfold calibredb_pubdate_args
    rw [h]
    decide

theorem pubdate_args_spec_witness :
    calibredb_pubdate_args recWithYear = ["--field", "pubdate:1999-01-01"]
    ∧ calibredb_pubdate_args (emptyRec "2") = [] :=
  ⟨pubdate_args_spec.2.2 recWithYear rfl, pubdate_args_spec.2.1 (emptyRec "2") rfl⟩
